import Mathlib

/-!
Shallow embedding of the Ceph MDS purge queue (src/mds/PurgeQueue.cc).

The purge queue persists file-deletion intents in a journal, consumes them one
at a time, dispatches object-store removal sub-operations for each item, and
advances the journal expire position when the oldest in-flight item completes.

Definitions are translated from the source file.  The external collaborators
(the Journaler, the Objecter/Filer, the Striper and the inode object-name
function) are not part of the repository sources and are modelled from the
spec at the boundary, as marked on each such definition.

Machine integers are modelled as `Nat`/`Int`; the encoders take values modulo
the relevant power of two exactly where the C++ fixed-width writes would.
-/

set_option maxHeartbeats 1000000

/-! ## Byte-level codec primitives

Modelled from the spec: the host encode/decode primitives (`::encode` /
`::decode` on fixed-width integers, strings and containers) write
little-endian fixed-width values and length-prefixed containers.  A byte is a
`Nat`; encoders emit values `< 256`. -/

def encU8 (n : Nat) : List Nat := [n % 256]

def encU32 (n : Nat) : List Nat :=
  [n % 256, n / 256 % 256, n / 65536 % 256, n / 16777216 % 256]

def encU64 (n : Nat) : List Nat :=
  encU32 (n % 4294967296) ++ encU32 (n / 4294967296)

def encI64 (i : Int) : List Nat :=
  encU64 (i % 18446744073709551616).toNat

def encBytes (bs : List Nat) : List Nat := encU32 bs.length ++ bs

def encList {α : Type} (enc : α → List Nat) (xs : List α) : List Nat :=
  encU32 xs.length ++ (xs.map enc).flatten

def decU8 : List Nat → Option (Nat × List Nat)
  | b :: rest => some (b, rest)
  | [] => none

def decU32 : List Nat → Option (Nat × List Nat)
  | b0 :: b1 :: b2 :: b3 :: rest =>
      some (b0 + 256 * b1 + 65536 * b2 + 16777216 * b3, rest)
  | _ => none

def decU64 (l : List Nat) : Option (Nat × List Nat) :=
  match decU32 l with
  | none => none
  | some (lo, r) =>
    match decU32 r with
    | none => none
    | some (hi, r') => some (lo + 4294967296 * hi, r')

def decI64 (l : List Nat) : Option (Int × List Nat) :=
  match decU64 l with
  | none => none
  | some (n, r) =>
      some ((if n < 9223372036854775808 then (n : Int)
             else (n : Int) - 18446744073709551616), r)

def decBytes (l : List Nat) : Option (List Nat × List Nat) :=
  match decU32 l with
  | none => none
  | some (len, r) =>
      if len ≤ r.length then some (r.take len, r.drop len) else none

def decListAux {α : Type} (dec : List Nat → Option (α × List Nat)) :
    Nat → List Nat → Option (List α × List Nat)
  | 0, l => some ([], l)
  | n + 1, l =>
    match dec l with
    | none => none
    | some (x, r) =>
      match decListAux dec n r with
      | none => none
      | some (xs, r') => some (x :: xs, r')

def decList {α : Type} (dec : List Nat → Option (α × List Nat))
    (l : List Nat) : Option (List α × List Nat) :=
  match decU32 l with
  | none => none
  | some (n, r) => decListAux dec n r

/-- ENCODE_START(v, compat, bl) ... ENCODE_FINISH(bl): a versioned frame with a
one-byte struct version, a one-byte compat version and a little-endian u32
payload length, filled in by ENCODE_FINISH. -/
def encFrame (v compat : Nat) (payload : List Nat) : List Nat :=
  encU8 v ++ encU8 compat ++ encU32 payload.length ++ payload

/-- DECODE_START(maxCompat, p): read the struct version and compat version,
refuse the frame when the writer's compat version exceeds what this reader
supports, then delimit the payload by the encoded length.  Returns the struct
version together with the payload bytes, and the remainder of the input
(DECODE_FINISH skips any unconsumed payload). -/
def decFrame (maxCompat : Nat) (l : List Nat) :
    Option ((Nat × List Nat) × List Nat) :=
  match decU8 l with
  | none => none
  | some (v, r) =>
    match decU8 r with
    | none => none
    | some (compat, r') =>
      if maxCompat < compat then none
      else
        match decU32 r' with
        | none => none
        | some (len, r'') =>
          if len ≤ r''.length then some ((v, r''.take len), r''.drop len)
          else none

/-! ## Data model -/

/-- Striping layout of a file (file_layout_t): stripe unit, stripe count,
object size (u32 each), primary pool id (s64) and pool namespace (byte
string).  The field list follows the spec's data model; the type itself is
declared outside the repository sources. -/
structure file_layout_t where
  stripe_unit : Nat
  stripe_count : Nat
  object_size : Nat
  pool_id : Int
  pool_ns : List Nat
deriving DecidableEq

/-- Snapshot context (SnapContext): snapshot sequence and list of snapshot
ids, each an unsigned 64-bit value. -/
structure SnapContext where
  seq : Nat
  snaps : List Nat
deriving DecidableEq

/-- One deletion intent (PurgeItem): inode number, size at deletion time,
striping layout, old pools that may hold backtrace objects, and the snapshot
context for the removals. -/
structure PurgeItem where
  ino : Nat
  size : Nat
  layout : file_layout_t
  old_pools : List Int
  snapc : SnapContext
deriving DecidableEq

/-- Modelled from the spec: file_layout_t::encode with the layout-v2 feature
flag writes a (v=2, compat=2) frame holding stripe_unit, stripe_count,
object_size, pool_id and the pool namespace in order. -/
def encode_layout (l : file_layout_t) : List Nat :=
  encFrame 2 2 (encU32 l.stripe_unit ++ encU32 l.stripe_count ++
    encU32 l.object_size ++ encI64 l.pool_id ++ encBytes l.pool_ns)

/-- Modelled from the spec: file_layout_t::decode, inverse of
`encode_layout`; refuses frames whose compat version exceeds 2. -/
def decode_layout (l : List Nat) : Option (file_layout_t × List Nat) :=
  match decFrame 2 l with
  | none => none
  | some ((_, payload), rest) =>
    match decU32 payload with
    | none => none
    | some (su, p1) =>
      match decU32 p1 with
      | none => none
      | some (sc, p2) =>
        match decU32 p2 with
        | none => none
        | some (os, p3) =>
          match decI64 p3 with
          | none => none
          | some (pid, p4) =>
            match decBytes p4 with
            | none => none
            | some (ns, _) =>
              some ({ stripe_unit := su, stripe_count := sc, object_size := os,
                      pool_id := pid, pool_ns := ns }, rest)

/-- Modelled from the spec: SnapContext::encode writes the sequence (u64)
followed by the snapshot-id vector (u32 count, then u64 each). -/
def encode_snapc (sc : SnapContext) : List Nat :=
  encU64 sc.seq ++ encList encU64 sc.snaps

/-- Modelled from the spec: SnapContext::decode, inverse of `encode_snapc`. -/
def decode_snapc (l : List Nat) : Option (SnapContext × List Nat) :=
  match decU64 l with
  | none => none
  | some (seq, r) =>
    match decList decU64 r with
    | none => none
    | some (snaps, r') => some ({ seq := seq, snaps := snaps }, r')

/-- PurgeItem::encode: ENCODE_START(1, 1), then ino, size, layout (with the
layout-v2 feature flag), old_pools and snapc in order, then ENCODE_FINISH. -/
def PurgeItem.encode (it : PurgeItem) : List Nat :=
  encFrame 1 1 (encU64 it.ino ++ encU64 it.size ++ encode_layout it.layout ++
    encList encI64 it.old_pools ++ encode_snapc it.snapc)

/-- PurgeItem::decode: DECODE_START(1, p), then the fields in the same order,
then DECODE_FINISH.  `none` models the thrown decode exception on any
malformed input. -/
def PurgeItem.decode (l : List Nat) : Option (PurgeItem × List Nat) :=
  match decFrame 1 l with
  | none => none
  | some ((_, payload), rest) =>
    match decU64 payload with
    | none => none
    | some (ino, p1) =>
      match decU64 p1 with
      | none => none
      | some (size, p2) =>
        match decode_layout p2 with
        | none => none
        | some (layout, p3) =>
          match decList decI64 p3 with
          | none => none
          | some (pools, p4) =>
            match decode_snapc p4 with
            | none => none
            | some (snapc, _) =>
              some ({ ino := ino, size := size, layout := layout,
                      old_pools := pools, snapc := snapc }, rest)

/-- Well-formed item: every field fits its C++ machine type, and the
containers are small enough that no u32 length prefix (including the frame
length written by ENCODE_FINISH) overflows. -/
def PurgeItem.wf (it : PurgeItem) : Prop :=
  it.ino < 18446744073709551616 ∧
  it.size < 18446744073709551616 ∧
  it.layout.stripe_unit < 4294967296 ∧
  it.layout.stripe_count < 4294967296 ∧
  it.layout.object_size < 4294967296 ∧
  -9223372036854775808 ≤ it.layout.pool_id ∧
  it.layout.pool_id < 9223372036854775808 ∧
  it.layout.pool_ns.length < 16777216 ∧
  it.old_pools.length < 16777216 ∧
  (∀ p ∈ it.old_pools, -9223372036854775808 ≤ p ∧ p < 9223372036854775808) ∧
  it.snapc.seq < 18446744073709551616 ∧
  it.snapc.snaps.length < 16777216 ∧
  (∀ s ∈ it.snapc.snaps, s < 18446744073709551616)

instance (it : PurgeItem) : Decidable it.wf := by
  unfold PurgeItem.wf; infer_instance

/-! ## External collaborators at the boundary -/

/-- Modelled from the spec: the canonical object name of an inode's backtrace
object, produced by the inode layer (CInode::get_object_name(ino, frag_t(),
"")); deterministic in the inode id and fragment. -/
structure object_t where
  ino : Nat
  frag : Nat
deriving DecidableEq

def CInode.get_object_name (ino : Nat) (frag : Nat) : object_t :=
  { ino := ino, frag := frag }

/-- Modelled from the spec: the striping calculator mapping (layout, size) to
the number of striped objects covering bytes [0, size): whole stripe periods
contribute stripe_count objects each; a partial tail period touches only the
objects its stripe units reach. -/
def Striper.get_num_objects (layout : file_layout_t) (size : Nat) : Nat :=
  let period := layout.stripe_count * layout.object_size
  let num_periods := (size + period - 1) / period
  let remainder_bytes := size % period
  let remainder_objs :=
    if 0 < remainder_bytes ∧
        remainder_bytes < layout.stripe_count * layout.stripe_unit then
      layout.stripe_count -
        ((remainder_bytes + layout.stripe_unit - 1) / layout.stripe_unit)
    else 0
  num_periods * layout.stripe_count - remainder_objs

/-- A recorded call to the journal adapter, used to observe which journal
operations the engine issued and in which order. -/
inductive JOp
  | append (bl : List Nat)
  | flush (cid : Nat)
  | setExpire (pos : Nat)
  | trim
deriving DecidableEq

/-- Modelled from the spec: the journal adapter (Journaler) at the boundary.
Entries are byte strings in append order; `read_idx` counts consumed entries;
`waiters` counts registered wait_for_readable continuations; `jlog` records
the adapter calls the engine issued. -/
structure Journaler where
  readonly : Bool
  entries : List (List Nat)
  read_idx : Nat
  expire_pos : Nat
  waiters : Nat
  jlog : List JOp
deriving DecidableEq

/-- Byte footprint of one journal entry: payload plus a positive envelope, so
log positions strictly increase per entry.  The exact envelope size is
immaterial to the engine. -/
def entryFootprint (bl : List Nat) : Nat := bl.length + 1

/-- Log offset at which entry number `k` begins (equivalently, the read
position after `k` entries have been consumed). -/
def posAt : List (List Nat) → Nat → Nat
  | _, 0 => 0
  | [], _ + 1 => 0
  | e :: es, k + 1 => entryFootprint e + posAt es k

def Journaler.is_readable (j : Journaler) : Bool :=
  j.read_idx < j.entries.length

def Journaler.have_waiter (j : Journaler) : Bool := j.waiters ≠ 0

def Journaler.wait_for_readable (j : Journaler) : Journaler :=
  { j with waiters := j.waiters + 1 }

/-- try_read_entry: return the next entry's bytes and advance the read
position.  Only called under `is_readable` (asserted in the source). -/
def Journaler.try_read_entry (j : Journaler) : List Nat × Journaler :=
  (j.entries.getD j.read_idx [], { j with read_idx := j.read_idx + 1 })

def Journaler.get_read_pos (j : Journaler) : Nat := posAt j.entries j.read_idx

def Journaler.append_entry (j : Journaler) (bl : List Nat) : Journaler :=
  { j with entries := j.entries ++ [bl], jlog := j.jlog ++ [JOp.append bl] }

def Journaler.flush (j : Journaler) (cid : Nat) : Journaler :=
  { j with jlog := j.jlog ++ [JOp.flush cid] }

def Journaler.set_expire_pos (j : Journaler) (pos : Nat) : Journaler :=
  { j with expire_pos := pos, jlog := j.jlog ++ [JOp.setExpire pos] }

def Journaler.trim (j : Journaler) : Journaler :=
  { j with jlog := j.jlog ++ [JOp.trim] }

/-! ## Purge engine -/

/-- One object-store sub-operation added to the gather in _execute_item:
either a ranged purge (filer.purge_range) or a single-object removal
(objecter->remove).  Timestamps and flags, which the source passes as
`ceph::real_clock::now()` and `0`, are not modelled. -/
inductive SubOp
  | purgeRange (ino : Nat) (layout : file_layout_t) (snapc : SnapContext)
      (first : Nat) (num : Nat)
  | removeObj (oid : object_t) (pool : Int) (snapc : SnapContext)
deriving DecidableEq

/-- Fatal conditions: a decode exception escaping _consume, or the
assert(!journaler.is_readonly()) in push firing. -/
inductive PQError
  | malformedEntry
  | notWriteable
deriving DecidableEq

/-- Engine state: the journal handle, the in-flight map (association list
sorted ascending by log position, mirroring std::map), and the trace of
object-store sub-operations issued so far. -/
structure PQState where
  j : Journaler
  in_flight : List (Nat × PurgeItem)
  issued : List SubOp
deriving DecidableEq

/-- std::map insert-or-assign (`in_flight[expire_to] = item`) on the sorted
association list. -/
def mapInsert (k : Nat) (v : PurgeItem) :
    List (Nat × PurgeItem) → List (Nat × PurgeItem)
  | [] => [(k, v)]
  | (k', v') :: rest =>
    if k < k' then (k, v) :: (k', v') :: rest
    else if k = k' then (k, v) :: rest
    else (k', v') :: mapInsert k v rest

/-- PurgeQueue::can_consume: allow consumption only when nothing is in
flight (the source's TODO notes the limit is currently just one). -/
def can_consume (s : PQState) : Bool :=
  if s.in_flight.length > 0 then false else true

/-- The sub-operations PurgeQueue::_execute_item adds to its gather, in
order: the ranged purge when size > 0, then the primary backtrace removal
when the gather is still empty or the layout has a pool namespace, then one
backtrace removal per old pool. -/
def execute_ops (item : PurgeItem) : List SubOp :=
  let gather : List SubOp := []
  let gather :=
    if item.size > 0 then
      gather ++ [SubOp.purgeRange item.ino item.layout item.snapc 0
        (Striper.get_num_objects item.layout item.size)]
    else gather
  let oid := CInode.get_object_name item.ino 0
  let gather :=
    if gather.isEmpty || !item.layout.pool_ns.isEmpty then
      gather ++ [SubOp.removeObj oid item.layout.pool_id item.snapc]
    else gather
  gather ++ item.old_pools.map (fun p => SubOp.removeObj oid p item.snapc)

/-- PurgeQueue::_execute_item: record the item in the in-flight map under its
post-read offset and issue the gather's sub-operations.  The gather finisher
(which calls execute_item_complete regardless of status) is modelled by the
gatherComplete event below. -/
def _execute_item (item : PurgeItem) (expire_to : Nat) (s : PQState) :
    PQState :=
  { s with in_flight := mapInsert expire_to item s.in_flight,
           issued := s.issued ++ execute_ops item }

/-- PurgeQueue::_consume: return early when consumption is not allowed;
when the journal is not readable register a wait_for_readable continuation
unless one exists; otherwise read one entry, decode it (a decode failure is
the propagated exception `malformedEntry`) and execute it at the post-read
position. -/
def _consume (s : PQState) : Except PQError PQState :=
  if !can_consume s then Except.ok s
  else if !s.j.is_readable then
    (if !s.j.have_waiter then Except.ok { s with j := s.j.wait_for_readable }
     else Except.ok s)
  else
    match PurgeItem.decode s.j.try_read_entry.1 with
    | none => Except.error PQError.malformedEntry
    | some (item, _) =>
        Except.ok (_execute_item item s.j.try_read_entry.2.get_read_pos
          { s with j := s.j.try_read_entry.2 })

/-- PurgeQueue::execute_item_complete: locate the completed entry (asserted
present; absent is modelled as a no-op since the step relation only delivers
completions for dispatched items); when it is the first (minimum) entry of
the map, set the expire position to it and trim; erase it; then re-enter
consumption. -/
def execute_item_complete (expire_to : Nat) (s : PQState) :
    Except PQError PQState :=
  match s.in_flight.find? (fun kv => kv.1 == expire_to) with
  | none => Except.ok s
  | some _ =>
    let j1 :=
      if s.in_flight.head?.map Prod.fst = some expire_to then
        (s.j.set_expire_pos expire_to).trim
      else s.j
    _consume { s with
        j := j1,
        in_flight := s.in_flight.eraseP (fun kv => kv.1 == expire_to) }

/-- PurgeQueue::push: assert the journal is not readonly (a violation is the
fatal `notWriteable`), encode the item, append it as one journal entry,
schedule a flush carrying the caller's completion, then consume. -/
def push (item : PurgeItem) (cid : Nat) (s : PQState) :
    Except PQError PQState :=
  if s.j.readonly then Except.error PQError.notWriteable
  else
    _consume { s with j := (s.j.append_entry item.encode).flush cid }

/-! ## Events and executions -/

/-- External events driving the engine: a producer push, the
wait_for_readable continuation firing with a status, and a gather finisher
firing with a status. -/
inductive Event
  | push (item : PurgeItem) (cid : Nat)
  | waiterFires (r : Int)
  | gatherComplete (pos : Nat) (r : Int)
deriving DecidableEq

/-- One engine transition per event.  A waiter continuation can fire only
while registered; it clears the registration and, exactly as the
FunctionContext in _consume does, re-enters _consume only when r == 0.  A
gather completion can fire only for a dispatched, still in-flight item; its
status is ignored, as in the finisher of _execute_item. -/
def step (e : Event) (s : PQState) : Except PQError PQState :=
  match e with
  | Event.push item cid => push item cid s
  | Event.waiterFires r =>
    if s.j.waiters = 0 then Except.ok s
    else
      let s1 : PQState := { s with j := { s.j with waiters := s.j.waiters - 1 } }
      if r = 0 then _consume s1 else Except.ok s1
  | Event.gatherComplete pos _ =>
    if (s.in_flight.find? (fun kv => kv.1 == pos)).isSome then
      execute_item_complete pos s
    else Except.ok s

/-- Run a sequence of events from a state; a fatal error stops the
execution. -/
def runFrom (s : PQState) : List Event → Except PQError PQState
  | [] => Except.ok s
  | e :: es =>
    match step e s with
    | Except.error err => Except.error err
    | Except.ok s' => runFrom s' es

/-- The state after open/create: a writeable journal with no entries, no
waiter, expire position zero, nothing in flight. -/
def initState : PQState :=
  { j := { readonly := false, entries := [], read_idx := 0, expire_pos := 0,
           waiters := 0, jlog := [] },
    in_flight := [], issued := [] }

def run (es : List Event) : Except PQError PQState := runFrom initState es

/-- The engine invariant maintained by every reachable state: in-flight keys
strictly sorted, every key between the expire position and the read
position, the expire position below the read position, the read index in
range, at most one item in flight and at most one registered waiter. -/
def EngineInv (s : PQState) : Prop :=
  List.Pairwise (fun p q => p.1 < q.1) s.in_flight ∧
  (∀ kv ∈ s.in_flight, s.j.expire_pos ≤ kv.1 ∧ kv.1 ≤ s.j.get_read_pos) ∧
  s.j.expire_pos ≤ s.j.get_read_pos ∧
  s.j.read_idx ≤ s.j.entries.length ∧
  s.in_flight.length ≤ 1 ∧
  s.j.waiters ≤ 1

/-! ## Concrete fixtures used to instantiate the theorems -/

def itemA : PurgeItem :=
  { ino := 1, size := 0,
    layout := { stripe_unit := 4, stripe_count := 1, object_size := 4,
                pool_id := 3, pool_ns := [] },
    old_pools := [], snapc := { seq := 0, snaps := [] } }

def itemB : PurgeItem := { itemA with ino := 2 }

def jBase : Journaler :=
  { readonly := false, entries := [], read_idx := 0, expire_pos := 0,
    waiters := 0, jlog := [] }

def snapA : SnapContext := { seq := 0, snaps := [] }

def evA : List Event := [Event.push itemA 0]

def evB : List Event := [Event.gatherComplete (posAt [itemA.encode] 1) 0]

/-- State after pushing `itemA` into a fresh queue: the entry is appended,
flushed, consumed and in flight at the post-read offset. -/
def sRun1 : PQState :=
  { j := { readonly := false, entries := [itemA.encode], read_idx := 1,
           expire_pos := 0, waiters := 0,
           jlog := [JOp.append itemA.encode, JOp.flush 0] },
    in_flight := [(posAt [itemA.encode] 1, itemA)],
    issued := [SubOp.removeObj (CInode.get_object_name 1 0) 3 snapA] }

/-- State after the gather for `itemA` completes: expire advanced to the
entry's offset, the drained journal re-registers a readable waiter. -/
def sRun2 : PQState :=
  { j := { readonly := false, entries := [itemA.encode], read_idx := 1,
           expire_pos := posAt [itemA.encode] 1, waiters := 1,
           jlog := [JOp.append itemA.encode, JOp.flush 0,
                    JOp.setExpire (posAt [itemA.encode] 1), JOp.trim] },
    in_flight := [],
    issued := [SubOp.removeObj (CInode.get_object_name 1 0) 3 snapA] }

def sC1a : PQState :=
  { j := jBase, in_flight := [(5, itemA), (7, itemB)], issued := [] }

def sC1b : PQState :=
  { j := jBase, in_flight := [(5, itemA)], issued := [] }

def sC2 : PQState :=
  { j := jBase, in_flight := [(10, itemA), (20, itemB)], issued := [] }

def sC2b : PQState :=
  { j := jBase, in_flight := [(10, itemA)], issued := [] }

def sC2c : PQState :=
  { j := { readonly := false, entries := [], read_idx := 0, expire_pos := 10,
           waiters := 1, jlog := [JOp.setExpire 10, JOp.trim] },
    in_flight := [], issued := [] }

def s6 : PQState :=
  { j := jBase, in_flight := [(3, itemA)], issued := [] }

def s7 : PQState :=
  { j := { readonly := false, entries := [[]], read_idx := 0, expire_pos := 0,
           waiters := 0, jlog := [] },
    in_flight := [], issued := [] }

def s8w : PQState :=
  { j := { readonly := false, entries := [], read_idx := 0, expire_pos := 0,
           waiters := 1, jlog := [] },
    in_flight := [], issued := [] }

def s8f : PQState := { j := jBase, in_flight := [], issued := [] }

def s9 : PQState :=
  { j := jBase, in_flight := [(7, itemA)], issued := [] }

/-! ## Codec round-trip lemmas -/

theorem decU32_encU32 (n : Nat) (rest : List Nat) (h : n < 4294967296) :
    decU32 (encU32 n ++ rest) = some (n, rest) := by
  have e : n % 256 + 256 * (n / 256 % 256) + 65536 * (n / 65536 % 256) +
      16777216 * (n / 16777216 % 256) = n := by omega
  simp only [encU32, List.cons_append, List.nil_append, decU32, e]

theorem decU64_encU64 (n : Nat) (rest : List Nat)
    (h : n < 18446744073709551616) :
    decU64 (encU64 n ++ rest) = some (n, rest) := by
  have h1 : n % 4294967296 < 4294967296 := by omega
  have h2 : n / 4294967296 < 4294967296 := by omega
  have e : n % 4294967296 + 4294967296 * (n / 4294967296) = n := by omega
  simp only [encU64, List.append_assoc, decU64, decU32_encU32 _ _ h1,
    decU32_encU32 _ _ h2, e]

theorem decI64_encI64 (i : Int) (rest : List Nat)
    (h1 : -9223372036854775808 ≤ i) (h2 : i < 9223372036854775808) :
    decI64 (encI64 i ++ rest) = some (i, rest) := by
  have hm : (i % 18446744073709551616).toNat < 18446744073709551616 := by
    omega
  have e : (if (i % 18446744073709551616).toNat < 9223372036854775808 then
      (((i % 18446744073709551616).toNat : Nat) : Int)
      else (((i % 18446744073709551616).toNat : Nat) : Int) -
        18446744073709551616) = i := by
    split <;> omega
  simp only [encI64, decI64, decU64_encU64 _ _ hm, e]

theorem decBytes_encBytes (bs rest : List Nat) (h : bs.length < 4294967296) :
    decBytes (encBytes bs ++ rest) = some (bs, rest) := by
  simp only [encBytes, List.append_assoc, decBytes, decU32_encU32 _ _ h]
  rw [if_pos (by simp)]
  simp

theorem decListAux_flatten {α : Type} (dec : List Nat → Option (α × List Nat))
    (enc : α → List Nat) (xs : List α) (rest : List Nat)
    (h : ∀ x ∈ xs, ∀ r, dec (enc x ++ r) = some (x, r)) :
    decListAux dec xs.length ((xs.map enc).flatten ++ rest) =
      some (xs, rest) := by
  induction xs with
  | nil => simp [decListAux]
  | cons a l ih =>
    simp only [List.map_cons, List.flatten_cons, List.length_cons,
      List.append_assoc, decListAux]
    rw [h a (by simp)]
    simp only [ih (fun x hx r => h x (by simp [hx]) r)]

theorem decList_encList {α : Type} (dec : List Nat → Option (α × List Nat))
    (enc : α → List Nat) (xs : List α) (rest : List Nat)
    (h : ∀ x ∈ xs, ∀ r, dec (enc x ++ r) = some (x, r))
    (hlen : xs.length < 4294967296) :
    decList dec (encList enc xs ++ rest) = some (xs, rest) := by
  simp only [encList, List.append_assoc, decList, decU32_encU32 _ _ hlen,
    decListAux_flatten dec enc xs rest h]

theorem decFrame_encFrame (maxc v c : Nat) (p rest : List Nat)
    (hv : v < 256) (hc : c ≤ maxc) (hc' : c < 256)
    (hp : p.length < 4294967296) :
    decFrame maxc (encFrame v c p ++ rest) = some ((v, p), rest) := by
  simp only [encFrame, encU8, List.cons_append, List.nil_append,
    List.append_assoc, decFrame, decU8, Nat.mod_eq_of_lt hv,
    Nat.mod_eq_of_lt hc']
  rw [if_neg (by omega)]
  simp only [decU32_encU32 _ _ hp]
  rw [if_pos (by simp)]
  simp

theorem encBytes_length (bs : List Nat) :
    (encBytes bs).length = 4 + bs.length := by
  simp [encBytes, encU32]
  omega

theorem encU64_length (n : Nat) : (encU64 n).length = 8 := by
  simp [encU64, encU32]

theorem encI64_length (i : Int) : (encI64 i).length = 8 := by
  simp [encI64, encU64, encU32]

theorem flatten_map_length_const {α : Type} (f : α → List Nat) (k : Nat)
    (hf : ∀ x, (f x).length = k) (xs : List α) :
    ((xs.map f).flatten).length = k * xs.length := by
  induction xs with
  | nil => simp
  | cons a l ih => simp [hf, ih]; ring

theorem encode_layout_length (l : file_layout_t) :
    (encode_layout l).length = 30 + l.pool_ns.length := by
  simp [encode_layout, encFrame, encU8, encU32, encI64_length,
    encBytes_length, encI64, encU64]
  omega

theorem encode_snapc_length (sc : SnapContext) :
    (encode_snapc sc).length = 12 + 8 * sc.snaps.length := by
  simp [encode_snapc, encList, encU32, encU64_length,
    flatten_map_length_const encU64 8 encU64_length]
  omega

theorem decode_layout_encode_layout (l : file_layout_t) (rest : List Nat)
    (h1 : l.stripe_unit < 4294967296) (h2 : l.stripe_count < 4294967296)
    (h3 : l.object_size < 4294967296)
    (h4 : -9223372036854775808 ≤ l.pool_id)
    (h5 : l.pool_id < 9223372036854775808)
    (h6 : l.pool_ns.length < 16777216) :
    decode_layout (encode_layout l ++ rest) = some (l, rest) := by
  have hp : (encU32 l.stripe_unit ++ encU32 l.stripe_count ++
      encU32 l.object_size ++ encI64 l.pool_id ++
      encBytes l.pool_ns).length < 4294967296 := by
    simp [encU32, encI64_length, encBytes_length]
    omega
  simp only [encode_layout, decode_layout,
    decFrame_encFrame 2 2 2 _ rest (by omega) (by omega) (by omega) hp]
  simp only [List.append_assoc, decU32_encU32 _ _ h1, decU32_encU32 _ _ h2,
    decU32_encU32 _ _ h3]
  rw [show encI64 l.pool_id ++ encBytes l.pool_ns =
    encI64 l.pool_id ++ (encBytes l.pool_ns ++ []) by simp]
  simp only [decI64_encI64 _ _ h4 h5,
    decBytes_encBytes _ _ (by omega : l.pool_ns.length < 4294967296)]

theorem decode_snapc_encode_snapc (sc : SnapContext) (rest : List Nat)
    (h1 : sc.seq < 18446744073709551616)
    (h2 : sc.snaps.length < 16777216)
    (h3 : ∀ s ∈ sc.snaps, s < 18446744073709551616) :
    decode_snapc (encode_snapc sc ++ rest) = some (sc, rest) := by
  simp only [encode_snapc, List.append_assoc, decode_snapc,
    decU64_encU64 _ _ h1,
    decList_encList decU64 encU64 sc.snaps rest
      (fun x hx r => decU64_encU64 x r (h3 x hx)) (by omega)]

theorem PurgeItem_decode_encode (it : PurgeItem) (rest : List Nat)
    (h : it.wf) : PurgeItem.decode (it.encode ++ rest) = some (it, rest) := by
  obtain ⟨hino, hsize, h1, h2, h3, h4, h5, h6, h7, h8, h9, h10, h11⟩ := h
  have hp : (encU64 it.ino ++ encU64 it.size ++ encode_layout it.layout ++
      encList encI64 it.old_pools ++ encode_snapc it.snapc).length <
      4294967296 := by
    simp [encU64_length, encode_layout_length, encode_snapc_length, encList,
      encU32, flatten_map_length_const encI64 8 encI64_length]
    omega
  simp only [PurgeItem.encode, PurgeItem.decode,
    decFrame_encFrame 1 1 1 _ rest (by omega) (by omega) (by omega) hp]
  simp only [List.append_assoc, decU64_encU64 _ _ hino,
    decU64_encU64 _ _ hsize,
    decode_layout_encode_layout it.layout _ h1 h2 h3 h4 h5 h6,
    decList_encList decI64 encI64 it.old_pools _
      (fun x hx r => decI64_encI64 x r (h8 x hx).1 (h8 x hx).2) (by omega)]
  rw [show encode_snapc it.snapc = encode_snapc it.snapc ++ [] by simp]
  simp only [decode_snapc_encode_snapc it.snapc [] h9 h10 h11]

/-! ## Log position lemmas -/

theorem posAt_le_succ (es : List (List Nat)) (k : Nat) :
    posAt es k ≤ posAt es (k + 1) := by
  induction es generalizing k with
  | nil => cases k <;> simp [posAt]
  | cons e tl ih =>
    cases k with
    | zero => simp [posAt]
    | succ k' =>
      simp only [posAt]
      exact Nat.add_le_add_left (ih k') _

theorem posAt_lt_succ (es : List (List Nat)) (k : Nat) (h : k < es.length) :
    posAt es k < posAt es (k + 1) := by
  induction es generalizing k with
  | nil => simp at h
  | cons e tl ih =>
    cases k with
    | zero => simp [posAt, entryFootprint]
    | succ k' =>
      simp only [posAt]
      have := ih k' (by simpa using h)
      omega

theorem posAt_append (es : List (List Nat)) (x : List Nat) (k : Nat)
    (h : k ≤ es.length) : posAt (es ++ [x]) k = posAt es k := by
  induction es generalizing k with
  | nil =>
    have : k = 0 := by simpa using h
    simp [this, posAt]
  | cons e tl ih =>
    cases k with
    | zero => rfl
    | succ k' =>
      show entryFootprint e + posAt (tl ++ [x]) k' =
        entryFootprint e + posAt tl k'
      rw [ih k' (by simpa using h)]

/-! ## Engine single-step lemmas -/

theorem can_consume_iff (s : PQState) :
    can_consume s = true ↔ s.in_flight = [] := by
  unfold can_consume
  constructor
  · intro h
    by_contra hne
    have := List.length_pos.mpr hne
    simp [this] at h
  · intro h
    simp [h]

theorem consume_blocked {s : PQState} (h : s.in_flight ≠ []) :
    _consume s = Except.ok s := by
  have hc : can_consume s = false := by
    cases hcc : can_consume s
    · rfl
    · exact absurd ((can_consume_iff s).mp hcc) h
  simp [_consume, hc]

theorem consume_wait_fresh {s : PQState} (h1 : can_consume s = true)
    (h2 : s.j.is_readable = false) (h3 : s.j.have_waiter = false) :
    _consume s = Except.ok { s with j := s.j.wait_for_readable } := by
  simp [_consume, h1, h2, h3]

theorem consume_wait_existing {s : PQState} (h1 : can_consume s = true)
    (h2 : s.j.is_readable = false) (h3 : s.j.have_waiter = true) :
    _consume s = Except.ok s := by
  simp [_consume, h1, h2, h3]

/-- Whatever _consume does, on any non-fatal outcome it leaves the expire
position, the issued journal operations, the entry list and the writable
flag untouched: only completions move the expire frontier. -/
theorem consume_frame {s s' : PQState} (h : _consume s = Except.ok s') :
    s'.j.expire_pos = s.j.expire_pos ∧ s'.j.jlog = s.j.jlog ∧
    s'.j.entries = s.j.entries ∧ s'.j.readonly = s.j.readonly := by
  unfold _consume at h
  split at h
  · cases h
    exact ⟨rfl, rfl, rfl, rfl⟩
  · split at h
    · split at h
      · cases h
        exact ⟨rfl, rfl, rfl, rfl⟩
      · cases h
        exact ⟨rfl, rfl, rfl, rfl⟩
    · split at h
      · cases h
      · cases h
        exact ⟨rfl, rfl, rfl, rfl⟩

/-- A decode failure during consumption is fatal: _consume surfaces
`malformedEntry`. -/
theorem consume_malformed {s : PQState} (h1 : can_consume s = true)
    (h2 : s.j.is_readable = true)
    (h3 : PurgeItem.decode (s.j.entries.getD s.j.read_idx []) = none) :
    _consume s = Except.error PQError.malformedEntry := by
  have h3' : PurgeItem.decode s.j.try_read_entry.1 = none := h3
  simp [_consume, h1, h2, h3']

/-! ## Invariant preservation -/

theorem consume_ok {s s' : PQState} (hI : EngineInv s)
    (h : _consume s = Except.ok s') : EngineInv s' := by
  obtain ⟨hpw, hkv, her, hri, hlen, hw⟩ := hI
  unfold _consume at h
  split at h
  · cases h
    exact ⟨hpw, hkv, her, hri, hlen, hw⟩
  · rename_i hcc
    have hempty : s.in_flight = [] := by
      apply (can_consume_iff s).mp
      revert hcc
      cases can_consume s <;> simp
    split at h
    · split at h
      · rename_i hnw
        have hw0 : s.j.waiters = 0 := by
          revert hnw
          unfold Journaler.have_waiter
          cases hww : s.j.waiters <;> simp
        cases h
        refine ⟨by simp [hempty], by simp [hempty], her, hri,
          by simp [hempty], ?_⟩
        show s.j.waiters + 1 ≤ 1
        omega
      · cases h
        exact ⟨hpw, hkv, her, hri, hlen, hw⟩
    · rename_i hr
      have hrb : s.j.is_readable = true := by
        revert hr
        cases s.j.is_readable <;> simp
      have hrlt : s.j.read_idx < s.j.entries.length := by
        simpa [Journaler.is_readable] using hrb
      split at h
      · cases h
      · cases h
        have hle : s.j.expire_pos ≤ posAt s.j.entries (s.j.read_idx + 1) :=
          le_trans her (posAt_le_succ _ _)
        refine ⟨?_, ?_, hle,
          by show s.j.read_idx + 1 ≤ s.j.entries.length; omega, ?_, hw⟩
        · simp [_execute_item, hempty, mapInsert]
        · intro kv hm
          simp [_execute_item, hempty, mapInsert] at hm
          rw [hm]
          exact ⟨hle, le_refl _⟩
        · simp [_execute_item, hempty, mapInsert]

theorem complete_ok {pos : Nat} {s s' : PQState} (hI : EngineInv s)
    (h : execute_item_complete pos s = Except.ok s') :
    EngineInv s' ∧ s.j.expire_pos ≤ s'.j.expire_pos := by
  obtain ⟨hpw, hkv, her, hri, hlen, hw⟩ := hI
  unfold execute_item_complete at h
  split at h
  · cases h
    exact ⟨⟨hpw, hkv, her, hri, hlen, hw⟩, le_refl _⟩
  · rename_i kv hfind
    cases hif : s.in_flight with
    | nil =>
      rw [hif] at hfind
      simp [List.find?] at hfind
    | cons a tl =>
      cases tl with
      | cons b tl2 =>
        rw [hif] at hlen
        simp at hlen
      | nil =>
        rw [hif] at hfind h
        by_cases hk : a.1 = pos
        · have hcond : ([a].head?.map Prod.fst) = some pos := by simp [hk]
          rw [if_pos hcond] at h
          have hep : ([a].eraseP (fun kv => kv.1 == pos)) = [] := by
            simp [List.eraseP_cons, hk]
          rw [hep] at h
          have ha : s.j.expire_pos ≤ a.1 ∧ a.1 ≤ s.j.get_read_pos :=
            hkv a (by rw [hif]; exact List.mem_singleton_self a)
          have hI2 : EngineInv { s with
              j := (s.j.set_expire_pos pos).trim,
              in_flight := ([] : List (Nat × PurgeItem)) } := by
            refine ⟨List.Pairwise.nil, by simp, ?_, hri, by simp, hw⟩
            show pos ≤ s.j.get_read_pos
            rw [← hk]
            exact ha.2
          have hframe := consume_frame h
          refine ⟨consume_ok hI2 h, ?_⟩
          rw [hframe.1]
          show s.j.expire_pos ≤ pos
          rw [← hk]
          exact ha.1
        · exfalso
          have : (a.1 == pos) = false := by
            simp [hk]
          simp [List.find?, this] at hfind

theorem push_ok {item : PurgeItem} {cid : Nat} {s s' : PQState}
    (hI : EngineInv s) (h : push item cid s = Except.ok s') :
    EngineInv s' ∧ s.j.expire_pos ≤ s'.j.expire_pos := by
  obtain ⟨hpw, hkv, her, hri, hlen, hw⟩ := hI
  unfold push at h
  split at h
  · cases h
  · have hgr : ((s.j.append_entry item.encode).flush cid).get_read_pos =
        s.j.get_read_pos := by
      show posAt (s.j.entries ++ [item.encode]) s.j.read_idx =
        posAt s.j.entries s.j.read_idx
      exact posAt_append _ _ _ hri
    have hI2 : EngineInv { s with
        j := (s.j.append_entry item.encode).flush cid } := by
      refine ⟨hpw, ?_, ?_, ?_, hlen, hw⟩
      · intro kv hm
        have := hkv kv hm
        constructor
        · exact this.1
        · show kv.1 ≤ ((s.j.append_entry item.encode).flush cid).get_read_pos
          rw [hgr]
          exact this.2
      · show s.j.expire_pos ≤
          ((s.j.append_entry item.encode).flush cid).get_read_pos
        rw [hgr]
        exact her
      · show s.j.read_idx ≤ (s.j.entries ++ [item.encode]).length
        simp
        omega
    refine ⟨consume_ok hI2 h, ?_⟩
    have hfr := (consume_frame h).1
    show s.j.expire_pos ≤ s'.j.expire_pos
    rw [hfr]
    exact le_refl _

theorem step_ok {e : Event} {s s' : PQState} (hI : EngineInv s)
    (h : step e s = Except.ok s') :
    EngineInv s' ∧ s.j.expire_pos ≤ s'.j.expire_pos := by
  cases e with
  | push item cid => exact push_ok hI h
  | waiterFires r =>
    obtain ⟨hpw, hkv, her, hri, hlen, hw⟩ := hI
    have h' : (if s.j.waiters = 0 then Except.ok s
        else if r = 0 then
          _consume { s with j := { s.j with waiters := s.j.waiters - 1 } }
        else
          Except.ok { s with j := { s.j with waiters := s.j.waiters - 1 } }) =
        Except.ok s' := h
    have hI1 : EngineInv { s with
        j := { s.j with waiters := s.j.waiters - 1 } } := by
      refine ⟨hpw, hkv, her, hri, hlen, ?_⟩
      show s.j.waiters - 1 ≤ 1
      omega
    split at h'
    · cases h'
      exact ⟨⟨hpw, hkv, her, hri, hlen, hw⟩, le_refl _⟩
    · split at h'
      · refine ⟨consume_ok hI1 h', ?_⟩
        have hfr := (consume_frame h').1
        show s.j.expire_pos ≤ s'.j.expire_pos
        rw [hfr]
      · cases h'
        exact ⟨hI1, le_refl _⟩
  | gatherComplete pos r =>
    have h' : (if (s.in_flight.find? (fun kv => kv.1 == pos)).isSome = true
        then execute_item_complete pos s else Except.ok s) =
        Except.ok s' := h
    split at h'
    · exact complete_ok hI h'
    · cases h'
      exact ⟨hI, le_refl _⟩

theorem runFrom_ok {es : List Event} {s s' : PQState} (hI : EngineInv s)
    (h : runFrom s es = Except.ok s') :
    EngineInv s' ∧ s.j.expire_pos ≤ s'.j.expire_pos := by
  induction es generalizing s with
  | nil =>
    cases h
    exact ⟨hI, le_refl _⟩
  | cons e tl ih =>
    unfold runFrom at h
    split at h
    · cases h
    · rename_i s1 hstep
      obtain ⟨hI1, hm1⟩ := step_ok hI hstep
      obtain ⟨hI2, hm2⟩ := ih hI1 h
      exact ⟨hI2, le_trans hm1 hm2⟩

theorem initState_inv : EngineInv initState := by
  refine ⟨List.Pairwise.nil, ?_, ?_, ?_, ?_, ?_⟩ <;>
    simp [initState, Journaler.get_read_pos, posAt]

theorem run_inv {es : List Event} {s : PQState}
    (h : run es = Except.ok s) : EngineInv s :=
  (runFrom_ok initState_inv h).1

/-! ## Completion of a non-minimum entry -/

/-- Completing an entry that is not at the head of the in-flight map leaves
the expire position and the journal operation log untouched. -/
theorem complete_nonmin {pos : Nat} {s s' : PQState}
    (hhead : s.in_flight.head?.map Prod.fst ≠ some pos)
    (h : execute_item_complete pos s = Except.ok s') :
    s'.j.expire_pos = s.j.expire_pos ∧ s'.j.jlog = s.j.jlog := by
  unfold execute_item_complete at h
  split at h
  · cases h
    exact ⟨rfl, rfl⟩
  · rw [if_neg hhead] at h
    have hfr := consume_frame h
    exact ⟨hfr.1, hfr.2.1⟩

/-- In a key-sorted in-flight map, an entry with a smaller key than `pos`
shows the head key is not `pos`. -/
theorem sorted_head_ne {pos : Nat} {l : List (Nat × PurgeItem)}
    (hpw : List.Pairwise (fun p q => p.1 < q.1) l)
    {kv : Nat × PurgeItem} (hm : kv ∈ l) (hlt : kv.1 < pos) :
    l.head?.map Prod.fst ≠ some pos := by
  cases l with
  | nil => simp at hm
  | cons a tl =>
    intro heq
    have ha : a.1 = pos := by simpa using heq
    rcases List.mem_cons.mp hm with h1 | h1
    · rw [h1] at hlt
      omega
    · have := (List.pairwise_cons.mp hpw).1 kv h1
      omega

/-- Completing the later of two in-flight entries removes it, touches
nothing else, and in particular leaves the expire position alone. -/
theorem complete_second {a b : Nat} {x y : PurgeItem} {s : PQState}
    (hab : a < b) (hin : s.in_flight = [(a, x), (b, y)]) :
    execute_item_complete b s =
      Except.ok { s with in_flight := [(a, x)] } := by
  have hne : a ≠ b := Nat.ne_of_lt hab
  have hblock : _consume { s with in_flight := [(a, x)] } =
      Except.ok { s with in_flight := [(a, x)] } :=
    consume_blocked (by simp)
  unfold execute_item_complete
  rw [hin]
  have hab' : (a == b) = false := by simp [hne]
  have hf : List.find? (fun kv => kv.1 == b) [(a, x), (b, y)] =
      some (b, y) := by
    simp [List.find?, hab']
  rw [hf]
  have hc : (([(a, x), (b, y)].head?.map Prod.fst) = some b) = False := by
    simp [hne]
  rw [if_neg (by simp [hne])]
  have he : ([(a, x), (b, y)].eraseP (fun kv => kv.1 == b)) = [(a, x)] := by
    simp [List.eraseP_cons, hab']
  rw [he]
  exact hblock

/-- Completing the only in-flight entry advances the expire position to its
key. -/
theorem complete_min_singleton {a : Nat} {x : PurgeItem} {s s' : PQState}
    (hin : s.in_flight = [(a, x)])
    (h : execute_item_complete a s = Except.ok s') :
    s'.j.expire_pos = a := by
  unfold execute_item_complete at h
  rw [hin] at h
  have hf : List.find? (fun kv => kv.1 == a) [(a, x)] = some (a, x) := by
    simp [List.find?]
  rw [hf] at h
  rw [if_pos (by simp)] at h
  have he : ([(a, x)].eraseP (fun kv => kv.1 == a)) = [] := by
    simp [List.eraseP_cons]
  rw [he] at h
  have hfr := (consume_frame h).1
  exact hfr

/-! ## Claims -/

/-- C1: In every execution of the engine the journal expire position is at
most every in-flight key (hence at most the minimum when the map is
non-empty); across any extension of an execution the expire position never
decreases; and completing an in-flight entry that is not the minimum of a
key-sorted in-flight map leaves the expire position unchanged and issues no
set_expire_pos or trim call (the journal operation log is untouched). -/
theorem C1_monotone_expire :
    (∀ (es : List Event) (s : PQState), run es = Except.ok s →
      ∀ kv ∈ s.in_flight, s.j.expire_pos ≤ kv.1) ∧
    (∀ (es more : List Event) (s s' : PQState), run es = Except.ok s →
      runFrom s more = Except.ok s' →
      s.j.expire_pos ≤ s'.j.expire_pos) ∧
    (∀ (pos : Nat) (s s' : PQState) (kv : Nat × PurgeItem),
      List.Pairwise (fun p q => p.1 < q.1) s.in_flight →
      kv ∈ s.in_flight → kv.1 < pos →
      execute_item_complete pos s = Except.ok s' →
      s'.j.expire_pos = s.j.expire_pos ∧ s'.j.jlog = s.j.jlog) := by
  refine ⟨?_, ?_, ?_⟩
  · intro es s h kv hm
    exact ((run_inv h).2.1 kv hm).1
  · intro es more s s' h h'
    exact (runFrom_ok (run_inv h) h').2
  · intro pos s s' kv hpw hm hlt h
    exact complete_nonmin (sorted_head_ne hpw hm hlt) h

/-- Witness for C1 at concrete inputs: one pushed item in flight, one gather
completion, and a non-minimum completion in a two-element in-flight map. -/
theorem C1_monotone_expire_witness :
    (∀ kv ∈ sRun1.in_flight, sRun1.j.expire_pos ≤ kv.1) ∧
    sRun1.j.expire_pos ≤ sRun2.j.expire_pos ∧
    (sC1b.j.expire_pos = sC1a.j.expire_pos ∧ sC1b.j.jlog = sC1a.j.jlog) := by
  refine ⟨C1_monotone_expire.1 evA sRun1 (by rfl), ?_, ?_⟩
  · exact C1_monotone_expire.2.1 evA evB sRun1 sRun2 (by rfl) (by rfl)
  · refine C1_monotone_expire.2.2 7 sC1a sC1b (5, itemA) ?_ ?_ ?_ ?_
    · show List.Pairwise _ [(5, itemA), (7, itemB)]
      simp [List.pairwise_cons]
    · show (5, itemA) ∈ [(5, itemA), (7, itemB)]
      simp
    · show 5 < 7
      omega
    · rfl

/-- C2 as stated is false on the code: with items in flight at offsets
10 < 20 and expire position 0, completing the item at 20 first leaves the
expire position unchanged, but the subsequent completion of the item at 10
sets the expire position to 10 (the completing entry's own offset), not to
20 as the claim asserts. -/
theorem C2_out_of_order_counterexample :
    execute_item_complete 20 sC2 = Except.ok sC2b ∧
    sC2b.j.expire_pos = 0 ∧
    execute_item_complete 10 sC2b = Except.ok sC2c ∧
    sC2c.j.expire_pos = 10 ∧ ¬ sC2c.j.expire_pos = 20 := by
  exact ⟨rfl, rfl, rfl, rfl, by decide⟩

/-- C2 (amended): with two items in flight at offsets A < B, completing the
item at B first leaves the expire position unchanged, and the subsequent
completion of the item at A advances the expire position to A, the
completing minimum entry's own offset (not to B). -/
theorem C2_out_of_order_amended (a b : Nat) (x y : PurgeItem)
    (s s1 s2 : PQState) (hab : a < b)
    (hin : s.in_flight = [(a, x), (b, y)])
    (h1 : execute_item_complete b s = Except.ok s1)
    (h2 : execute_item_complete a s1 = Except.ok s2) :
    s1.j.expire_pos = s.j.expire_pos ∧ s2.j.expire_pos = a := by
  rw [complete_second hab hin] at h1
  injection h1 with h1'
  subst h1'
  exact ⟨rfl, complete_min_singleton rfl h2⟩

/-- Witness for the amended C2 at offsets 10 < 20. -/
theorem C2_out_of_order_amended_witness :
    (10 : Nat) < 20 ∧ sC2.in_flight = [(10, itemA), (20, itemB)] ∧
    (sC2b.j.expire_pos = sC2.j.expire_pos ∧ sC2c.j.expire_pos = 10) := by
  refine ⟨by omega, rfl, ?_⟩
  exact C2_out_of_order_amended 10 20 itemA itemB sC2 sC2b sC2c
    (by omega) rfl rfl rfl

/-- C3: for every well-formed PurgeItem, decoding the bytes produced by
encoding it yields the item back (and consumes the whole encoding). -/
theorem C3_codec_roundtrip (it : PurgeItem) (h : it.wf) :
    PurgeItem.decode it.encode = some (it, []) := by
  have hr := PurgeItem_decode_encode it [] h
  simpa using hr

/-- Witness for C3 at a concrete well-formed item. -/
theorem C3_codec_roundtrip_witness :
    PurgeItem.wf itemA ∧ PurgeItem.decode itemA.encode = some (itemA, []) :=
  ⟨by decide, C3_codec_roundtrip itemA (by decide)⟩

/-- C4: the sub-operations issued for an executed item are exactly: a ranged
purge over objects [0, num) with num = Striper.get_num_objects(layout, size)
if and only if size > 0; the primary backtrace removal in the layout's pool
if and only if size = 0 (no ranged purge was issued) or the pool namespace
is non-empty; and one backtrace removal per old pool unconditionally. -/
theorem C4_dispatch_rules (item : PurgeItem) :
    execute_ops item =
      (if item.size > 0 then
        [SubOp.purgeRange item.ino item.layout item.snapc 0
          (Striper.get_num_objects item.layout item.size)]
       else []) ++
      (if item.size = 0 ∨ item.layout.pool_ns ≠ [] then
        [SubOp.removeObj (CInode.get_object_name item.ino 0)
          item.layout.pool_id item.snapc]
       else []) ++
      item.old_pools.map (fun p =>
        SubOp.removeObj (CInode.get_object_name item.ino 0) p item.snapc) := by
  unfold execute_ops
  rcases Nat.eq_zero_or_pos item.size with h | h
  · simp [h]
  · have h0 : ¬ item.size = 0 := by omega
    by_cases hns : item.layout.pool_ns = [] <;> simp [h, h0, hns]

/-- C5: every executed item issues at least one sub-operation, so the
assertion gather.has_subs() in _execute_item never fails; in particular for
size = 0 and no old pools the primary backtrace removal alone is issued. -/
theorem C5_dispatch_nonempty :
    (∀ item : PurgeItem, execute_ops item ≠ []) ∧
    (∀ item : PurgeItem, item.size = 0 → item.old_pools = [] →
      execute_ops item =
        [SubOp.removeObj (CInode.get_object_name item.ino 0)
          item.layout.pool_id item.snapc]) := by
  constructor
  · intro item
    unfold execute_ops
    rcases Nat.eq_zero_or_pos item.size with h | h
    · simp [h]
    · have h0 : ¬ item.size = 0 := by omega
      by_cases hns : item.layout.pool_ns = [] <;> simp [h, h0, hns]
  · intro item h hp
    unfold execute_ops
    simp [h, hp]

/-- Witness for C5 at a concrete zero-size item with no old pools. -/
theorem C5_dispatch_nonempty_witness :
    execute_ops itemA ≠ [] ∧
    (itemA.size = 0 ∧ itemA.old_pools = [] ∧
      execute_ops itemA =
        [SubOp.removeObj (CInode.get_object_name itemA.ino 0)
          itemA.layout.pool_id itemA.snapc]) :=
  ⟨C5_dispatch_nonempty.1 itemA,
   rfl, rfl, C5_dispatch_nonempty.2 itemA rfl rfl⟩

/-- C6: can_consume() is exactly emptiness of the in-flight map, the
in-flight map never holds more than one entry in any reachable state, and
_consume returns without reading anything whenever an item is in flight. -/
theorem C6_admission_bound :
    (∀ s : PQState, can_consume s = s.in_flight.isEmpty) ∧
    (∀ (es : List Event) (s : PQState), run es = Except.ok s →
      s.in_flight.length ≤ 1) ∧
    (∀ s : PQState, s.in_flight ≠ [] → _consume s = Except.ok s) := by
  refine ⟨?_, ?_, ?_⟩
  · intro s
    cases hif : s.in_flight with
    | nil => simp [can_consume, hif]
    | cons a tl => simp [can_consume, hif]
  · intro es s h
    exact (run_inv h).2.2.2.2.1
  · intro s h
    exact consume_blocked h

/-- Witness for C6: the reachable one-item state, and a blocked consume. -/
theorem C6_admission_bound_witness :
    sRun1.in_flight.length ≤ 1 ∧ _consume s6 = Except.ok s6 := by
  refine ⟨C6_admission_bound.2.1 evA sRun1 (by rfl), ?_⟩
  exact C6_admission_bound.2.2 s6 (by simp [s6])

/-- C7: when the entry read during consumption fails to decode, _consume
surfaces the fatal malformedEntry error (the decode exception propagates to
the caller) and does not execute anything. -/
theorem C7_malformed_fatal (s : PQState) (h1 : can_consume s = true)
    (h2 : s.j.is_readable = true)
    (h3 : PurgeItem.decode (s.j.entries.getD s.j.read_idx []) = none) :
    _consume s = Except.error PQError.malformedEntry :=
  consume_malformed h1 h2 h3

/-- Witness for C7: a journal whose next entry is empty (undecodable). -/
theorem C7_malformed_fatal_witness :
    can_consume s7 = true ∧ s7.j.is_readable = true ∧
    PurgeItem.decode (s7.j.entries.getD s7.j.read_idx []) = none ∧
    _consume s7 = Except.error PQError.malformedEntry :=
  ⟨by decide, by decide, by decide,
   C7_malformed_fatal s7 (by decide) (by decide) (by decide)⟩

/-- C8: consumption registers a readable-waiter only when none is
registered; reachable states never hold more than one waiter; and the
registered continuation re-enters _consume exactly when its status is 0,
merely clearing the registration otherwise. -/
theorem C8_waiter_discipline :
    (∀ s : PQState, can_consume s = true → s.j.is_readable = false →
      s.j.have_waiter = true → _consume s = Except.ok s) ∧
    (∀ s : PQState, can_consume s = true → s.j.is_readable = false →
      s.j.have_waiter = false →
      _consume s = Except.ok { s with j := s.j.wait_for_readable }) ∧
    (∀ (es : List Event) (s : PQState), run es = Except.ok s →
      s.j.waiters ≤ 1) ∧
    (∀ (s : PQState) (r : Int), ¬ s.j.waiters = 0 → ¬ r = 0 →
      step (Event.waiterFires r) s =
        Except.ok { s with j := { s.j with waiters := s.j.waiters - 1 } }) ∧
    (∀ (s : PQState) (r : Int), ¬ s.j.waiters = 0 → r = 0 →
      step (Event.waiterFires r) s =
        _consume { s with j := { s.j with waiters := s.j.waiters - 1 } }) := by
  refine ⟨?_, ?_, ?_, ?_, ?_⟩
  · intro s h1 h2 h3
    exact consume_wait_existing h1 h2 h3
  · intro s h1 h2 h3
    exact consume_wait_fresh h1 h2 h3
  · intro es s h
    exact (run_inv h).2.2.2.2.2
  · intro s r hw hr
    show (if s.j.waiters = 0 then Except.ok s
      else if r = 0 then
        _consume { s with j := { s.j with waiters := s.j.waiters - 1 } }
      else
        Except.ok { s with j := { s.j with waiters := s.j.waiters - 1 } }) =
      Except.ok { s with j := { s.j with waiters := s.j.waiters - 1 } }
    rw [if_neg hw, if_neg hr]
  · intro s r hw hr
    show (if s.j.waiters = 0 then Except.ok s
      else if r = 0 then
        _consume { s with j := { s.j with waiters := s.j.waiters - 1 } }
      else
        Except.ok { s with j := { s.j with waiters := s.j.waiters - 1 } }) =
      _consume { s with j := { s.j with waiters := s.j.waiters - 1 } }
    rw [if_neg hw, if_pos hr]

/-- Witness for C8: a registered waiter blocks re-registration, a fresh
state registers one, a reachable state has at most one, and the waiter
callback consumes exactly on status 0. -/
theorem C8_waiter_discipline_witness :
    _consume s8w = Except.ok s8w ∧
    _consume s8f = Except.ok { s8f with j := s8f.j.wait_for_readable } ∧
    sRun2.j.waiters ≤ 1 ∧
    step (Event.waiterFires 5) s8w =
      Except.ok { s8w with j := { s8w.j with waiters := s8w.j.waiters - 1 } } ∧
    step (Event.waiterFires 0) s8w =
      _consume { s8w with j := { s8w.j with waiters := s8w.j.waiters - 1 } } := by
  refine ⟨?_, ?_, ?_, ?_, ?_⟩
  · exact C8_waiter_discipline.1 s8w (by decide) (by decide) (by decide)
  · exact C8_waiter_discipline.2.1 s8f (by decide) (by decide) (by decide)
  · exact C8_waiter_discipline.2.2.1 (evA ++ evB) sRun2 (by rfl)
  · exact C8_waiter_discipline.2.2.2.1 s8w 5 (by decide) (by decide)
  · exact C8_waiter_discipline.2.2.2.2 s8w 0 (by decide) rfl

/-- C9: the gather finisher ignores the completion status entirely: the
transition it triggers is the same for every status, and for a dispatched
in-flight item it is exactly execute_item_complete (in-flight removal and
possible expire advancement), so a permanently failed sub-operation is
treated the same as success. -/
theorem C9_completion_ignores_status :
    (∀ (s : PQState) (pos : Nat) (r r' : Int),
      step (Event.gatherComplete pos r) s =
        step (Event.gatherComplete pos r') s) ∧
    (∀ (s : PQState) (pos : Nat) (r : Int),
      (s.in_flight.find? (fun kv => kv.1 == pos)).isSome = true →
      step (Event.gatherComplete pos r) s = execute_item_complete pos s) := by
  constructor
  · intro s pos r r'
    rfl
  · intro s pos r h
    show (if (s.in_flight.find? (fun kv => kv.1 == pos)).isSome = true then
      execute_item_complete pos s else Except.ok s) =
      execute_item_complete pos s
    rw [if_pos h]

/-- Witness for C9: a failed status (-5) completes the in-flight item just
like a success. -/
theorem C9_completion_ignores_status_witness :
    (s9.in_flight.find? (fun kv => kv.1 == 7)).isSome = true ∧
    step (Event.gatherComplete 7 (-5)) s9 = execute_item_complete 7 s9 :=
  ⟨by decide, C9_completion_ignores_status.2 s9 7 (-5) (by decide)⟩

/-- C10: under the asserted precondition that the journal is writeable,
push appends the item's encoding as one journal entry, then schedules a
flush carrying the caller's completion, and then (synchronously) invokes
consumption on the resulting state. -/
theorem C10_push_contract (item : PurgeItem) (cid : Nat) (s : PQState)
    (h : s.j.readonly = false) :
    ((s.j.append_entry item.encode).flush cid).entries =
      s.j.entries ++ [item.encode] ∧
    ((s.j.append_entry item.encode).flush cid).jlog =
      s.j.jlog ++ [JOp.append item.encode, JOp.flush cid] ∧
    push item cid s =
      _consume { s with j := (s.j.append_entry item.encode).flush cid } := by
  refine ⟨rfl, ?_, ?_⟩
  · simp [Journaler.append_entry, Journaler.flush]
  · simp [push, h]

/-- Witness for C10 on a fresh writeable queue. -/
theorem C10_push_contract_witness :
    initState.j.readonly = false ∧
    (((initState.j.append_entry itemA.encode).flush 4).entries =
      initState.j.entries ++ [itemA.encode] ∧
    ((initState.j.append_entry itemA.encode).flush 4).jlog =
      initState.j.jlog ++ [JOp.append itemA.encode, JOp.flush 4] ∧
    push itemA 4 initState =
      _consume { initState with
        j := (initState.j.append_entry itemA.encode).flush 4 }) :=
  ⟨rfl, C10_push_contract itemA 4 initState rfl⟩
